import Mathlib

/-!
Verification of the `ringbuffer` Go package: a fixed-capacity FIFO ring buffer
over a contiguous backing store with two integer cursors (`read`, `write`) and
one reserved sentinel slot.

The four low-level functions `Cap`, `Len`, `Push`, `Pop` from `ringbuffer.go`
are embedded as Lean functions over a `List T` backing store and `Int` cursors
(Go's `int` is a signed machine integer; inside the owning container the
cursors always stay in `[0, len(store))`, so no overflow arises and `Int` is
an exact model).  Go's `%` on `int` is truncated division, modelled by
`Int.tmod`.  A Go slice access `s[i]` panics when `i` is out of range; this is
modelled by making `Push` and `Pop` return `Option` — `none` is a panic.  Go's
zero value of the element type is modelled by `default` from `Inhabited`.
-/

namespace ringbuffer

/-- Go slice read `s[i]`: `some` of the element when `0 ≤ i < len s`, `none`
(a panic) otherwise. -/
def goIndex {T : Type} (s : List T) (i : Int) : Option T :=
  if 0 ≤ i ∧ i < (s.length : Int) then s[i.toNat]? else none

/-- Go slice write `s[i] = v`: `some` of the updated list when
`0 ≤ i < len s`, `none` (a panic) otherwise. -/
def goSet {T : Type} (s : List T) (i : Int) (v : T) : Option (List T) :=
  if 0 ≤ i ∧ i < (s.length : Int) then some (s.set i.toNat v) else none

/-- `func Cap[T any](slice []T) int`: `v := len(slice) - 1; if v < 0 { v = 0 };
return v`. -/
def Cap {T : Type} (slice : List T) : Int :=
  let v : Int := (slice.length : Int) - 1
  if v < 0 then 0 else v

/-- `func Len[T any, U constraints.Integer](slice []T, read, write U) int`:
`if write >= read { return int(write - read) } else
{ return len(slice) - int(read - write) }`. -/
def Len {T : Type} (slice : List T) (read write : Int) : Int :=
  if write ≥ read then write - read
  else (slice.length : Int) - (read - write)

/-- `func Push[T any, U constraints.Integer](slice []T, read U, write *U, v T)
bool`.  Returns `some (success, new slice, new write)`, or `none` when the
slice store `slice[*write] = v` panics. -/
def Push {T : Type} (slice : List T) (read write : Int) (v : T) :
    Option (Bool × List T × Int) :=
  if slice.length = 0 then some (false, slice, write)
  else
    let next : Int := Int.tmod (write + 1) (slice.length : Int)
    if next = read then some (false, slice, write)
    else
      match goSet slice write v with
      | some s2 => some (true, s2, next)
      | none => none

/-- `func Pop[T any, U constraints.Integer](slice []T, read *U, write U)
(T, bool)`.  Returns `some (value, success, new read)`, or `none` when the
slice read `slice[*read]` panics. -/
def Pop {T : Type} [Inhabited T] (slice : List T) (read write : Int) :
    Option (T × Bool × Int) :=
  if read = write then some (default, false, read)
  else
    match goIndex slice read with
    | some val => some (val, true, Int.tmod (read + 1) (slice.length : Int))
    | none => none

/-- `type RingBuffer[T any] struct { read int; write int; buffer []T }`. -/
structure RingBuffer (T : Type) where
  read : Int
  write : Int
  buffer : List T
deriving DecidableEq, Repr

/-- The Go zero value of `RingBuffer[T]`: nil slice, both cursors `0`. -/
def zeroValue (T : Type) : RingBuffer T := ⟨0, 0, []⟩

/-- `func New[T any](capacity int) RingBuffer[T]`: a backing store of
`capacity+1` zero-valued elements when `capacity >= 1`, nil otherwise;
cursors start at `0`. -/
def New (T : Type) [Inhabited T] (capacity : Int) : RingBuffer T :=
  ⟨0, 0, if capacity ≥ 1 then List.replicate (capacity + 1).toNat default else []⟩

/-- Method `func (b RingBuffer[T]) Cap() int`. -/
def RingBuffer.Cap {T : Type} (b : RingBuffer T) : Int :=
  ringbuffer.Cap b.buffer

/-- Method `func (b RingBuffer[T]) Len() int`. -/
def RingBuffer.Len {T : Type} (b : RingBuffer T) : Int :=
  ringbuffer.Len b.buffer b.read b.write

/-- Method `func (b *RingBuffer[T]) Push(v T) bool`: delegates to the free
`Push`, threading the receiver's store and cursors.  Returns the success flag
and the updated receiver (`none` is a panic). -/
def RingBuffer.Push {T : Type} (b : RingBuffer T) (v : T) :
    Option (Bool × RingBuffer T) :=
  match ringbuffer.Push b.buffer b.read b.write v with
  | some (ok, s2, w2) => some (ok, ⟨b.read, w2, s2⟩)
  | none => none

/-- Method `func (b *RingBuffer[T]) Pop() (T, bool)`: delegates to the free
`Pop`.  Returns the value, the success flag and the updated receiver
(`none` is a panic). -/
def RingBuffer.Pop {T : Type} [Inhabited T] (b : RingBuffer T) :
    Option (T × Bool × RingBuffer T) :=
  match ringbuffer.Pop b.buffer b.read b.write with
  | some (val, ok, r2) => some (val, ok, ⟨r2, b.write, b.buffer⟩)
  | none => none

/-- Perform a sequence of `Push` calls, collecting the success flags.
`none` as soon as any call panics. -/
def pushAll {T : Type} (b : RingBuffer T) : List T → Option (List Bool × RingBuffer T)
  | [] => some ([], b)
  | v :: vs =>
    match b.Push v with
    | none => none
    | some (ok, b2) =>
      match pushAll b2 vs with
      | none => none
      | some (oks, b3) => some (ok :: oks, b3)

/-- Perform `n` `Pop` calls, collecting the `(value, success)` pairs.
`none` as soon as any call panics. -/
def popN {T : Type} [Inhabited T] (b : RingBuffer T) : Nat → Option (List (T × Bool) × RingBuffer T)
  | 0 => some ([], b)
  | n + 1 =>
    match b.Pop with
    | none => none
    | some (val, ok, b2) =>
      match popN b2 n with
      | none => none
      | some (ps, b3) => some ((val, ok) :: ps, b3)

/-- States reachable from `New C` by sequences of `Push` and `Pop` calls
(a panicking call makes no transition). -/
inductive Reachable {T : Type} [Inhabited T] (C : Int) : RingBuffer T → Prop
  | init : Reachable C (New T C)
  | push (b : RingBuffer T) (v : T) (p : Bool × RingBuffer T) :
      Reachable C b → b.Push v = some p → Reachable C p.2
  | pop (b : RingBuffer T) (p : T × Bool × RingBuffer T) :
      Reachable C b → b.Pop = some p → Reachable C p.2.2

/-! ### Exact characterization of a returned `Push` / `Pop` result -/

/-- Whenever the free `Push` returns (does not panic), the outcome is `false`
exactly on the empty-store and full branches; a `false` outcome leaves store
and cursor untouched, and a `true` outcome stores `v` at the old in-range
write position and advances the write cursor. -/
lemma push_spec {T : Type} (s : List T) (r w : Int) (v : T)
    (ok : Bool) (s2 : List T) (w2 : Int)
    (h : Push s r w v = some (ok, s2, w2)) :
    (ok = false ↔ (s.length = 0 ∨ Int.tmod (w + 1) (s.length : Int) = r)) ∧
    (ok = false → s2 = s ∧ w2 = w) ∧
    (ok = true → 0 ≤ w ∧ w < (s.length : Int) ∧ s2 = s.set w.toNat v ∧
      w2 = Int.tmod (w + 1) (s.length : Int)) := by
  unfold Push goSet at h
  by_cases h0 : s.length = 0
  · simp only [if_pos h0] at h
    obtain ⟨h1, h2, h3⟩ := (by simpa using h : false = ok ∧ s = s2 ∧ w = w2)
    subst h1; subst h2; subst h3
    simp [h0]
  · simp only [if_neg h0] at h
    by_cases hfull : Int.tmod (w + 1) (s.length : Int) = r
    · simp only [if_pos hfull] at h
      obtain ⟨h1, h2, h3⟩ := (by simpa using h : false = ok ∧ s = s2 ∧ w = w2)
      subst h1; subst h2; subst h3
      simp [h0, hfull]
    · simp only [if_neg hfull] at h
      by_cases hin : 0 ≤ w ∧ w < (s.length : Int)
      · simp only [if_pos hin] at h
        obtain ⟨h1, h2, h3⟩ :=
          (by simpa using h :
            true = ok ∧ s.set w.toNat v = s2 ∧ Int.tmod (w + 1) (s.length : Int) = w2)
        subst h1; subst h2; subst h3
        simp [h0, hfull, hin.1, hin.2]
      · simp only [if_neg hin] at h
        simp at h

/-- Whenever the free `Pop` returns (does not panic), the outcome is `false`
exactly on the empty branch, in which case it yields the default value and
keeps the read cursor; a `true` outcome yields the element at the in-range
read position and advances the read cursor. -/
lemma pop_spec {T : Type} [Inhabited T] (s : List T) (r w : Int)
    (val : T) (ok : Bool) (r2 : Int)
    (h : Pop s r w = some (val, ok, r2)) :
    (ok = false ↔ r = w) ∧
    (ok = false → val = default ∧ r2 = r) ∧
    (ok = true → 0 ≤ r ∧ r < (s.length : Int) ∧ s[r.toNat]? = some val ∧
      r2 = Int.tmod (r + 1) (s.length : Int)) := by
  unfold Pop goIndex at h
  by_cases hrw : r = w
  · simp only [if_pos hrw] at h
    obtain ⟨h1, h2, h3⟩ := (by simpa using h : (default : T) = val ∧ false = ok ∧ r = r2)
    subst h1; subst h2; subst h3
    simp [hrw]
  · simp only [if_neg hrw] at h
    by_cases hin : 0 ≤ r ∧ r < (s.length : Int)
    · simp only [if_pos hin] at h
      have hlt : r.toNat < s.length := by omega
      have hsome : s[r.toNat]? = some s[r.toNat] := List.getElem?_eq_getElem hlt
      rw [hsome] at h
      obtain ⟨h1, h2, h3⟩ :=
        (by simpa using h :
          s[r.toNat] = val ∧ true = ok ∧ Int.tmod (r + 1) (s.length : Int) = r2)
      subst h1; subst h2; subst h3
      simp [hrw, hin.1, hin.2, hsome]
    · simp only [if_neg hin] at h
      simp at h

/-! ### Claim theorems: error handling, length formula, construction,
zero value, frame effects, access safety -/

/-- C4: whenever `Push` returns a result, it returns `false` if and only if
`len(store) == 0` or `(write + 1) mod len(store) == read`; on `false` the
store and the write cursor are unchanged (the value is discarded); on `true`
the value is stored at the old write position and the write cursor advances
to `(write + 1) mod len(store)`. -/
theorem push_failure_semantics {T : Type} (s : List T) (r w : Int) (v : T)
    (ok : Bool) (s2 : List T) (w2 : Int)
    (h : Push s r w v = some (ok, s2, w2)) :
    (ok = false ↔ (s.length = 0 ∨ Int.tmod (w + 1) (s.length : Int) = r)) ∧
    (ok = false → s2 = s ∧ w2 = w) ∧
    (ok = true → 0 ≤ w ∧ w < (s.length : Int) ∧ s2 = s.set w.toNat v ∧
      w2 = Int.tmod (w + 1) (s.length : Int)) :=
  push_spec s r w v ok s2 w2 h

/-- C4 witness: a concrete full buffer (store length 2, `write+1 ≡ read`)
where `Push` fails and leaves everything unchanged. -/
theorem push_failure_semantics_witness :
    Push ([9, 9] : List Int) 0 1 5 = some (false, [9, 9], 1) ∧
    ((false = false ↔
      (([9, 9] : List Int).length = 0 ∨
        Int.tmod (1 + 1) ((([9, 9] : List Int).length : Nat) : Int) = 0)) ∧
     (false = false → ([9, 9] : List Int) = [9, 9] ∧ (1 : Int) = 1) ∧
     (false = true → 0 ≤ (1 : Int) ∧ (1 : Int) < ((([9, 9] : List Int).length : Nat) : Int) ∧
       ([9, 9] : List Int) = ([9, 9] : List Int).set (1 : Int).toNat 5 ∧
       (1 : Int) = Int.tmod (1 + 1) ((([9, 9] : List Int).length : Nat) : Int))) :=
  ⟨by decide, push_failure_semantics [9, 9] 0 1 5 false [9, 9] 1 (by decide)⟩

/-- C5: whenever `Pop` returns a result, it returns `(default, false)` if and
only if `read == write` (empty), leaving the read cursor unchanged; otherwise
it returns the element at position `read` with `true` and advances the read
cursor to `(read + 1) mod len(store)`. -/
theorem pop_failure_semantics {T : Type} [Inhabited T] (s : List T) (r w : Int)
    (val : T) (ok : Bool) (r2 : Int)
    (h : Pop s r w = some (val, ok, r2)) :
    (ok = false ↔ r = w) ∧
    (ok = false → val = default ∧ r2 = r) ∧
    (ok = true → 0 ≤ r ∧ r < (s.length : Int) ∧ s[r.toNat]? = some val ∧
      r2 = Int.tmod (r + 1) (s.length : Int)) :=
  pop_spec s r w val ok r2 h

/-- C5 witness: a concrete nonempty buffer where `Pop` yields the element at
the read position with `true`, and a concrete empty buffer is covered by the
`false` branch of the same instantiated conclusion. -/
theorem pop_failure_semantics_witness :
    Pop ([7, 8] : List Int) 0 1 = some (7, true, 1) ∧
    ((true = false ↔ (0 : Int) = 1) ∧
     (true = false → (7 : Int) = default ∧ (1 : Int) = 0) ∧
     (true = true → 0 ≤ (0 : Int) ∧ (0 : Int) < ((([7, 8] : List Int).length : Nat) : Int) ∧
       ([7, 8] : List Int)[(0 : Int).toNat]? = some 7 ∧
       (1 : Int) = Int.tmod (0 + 1) ((([7, 8] : List Int).length : Nat) : Int))) :=
  ⟨by decide, pop_failure_semantics [7, 8] 0 1 7 true 1 (by decide)⟩

/-- C6 (amended): `Len` returns `write - read` when `write >= read` and
`len(store) - (read - write)` otherwise, for every store including a
zero-length one; on a zero-length store it returns `0` whenever the two
cursors are equal (in particular for the zero-value container), but not for
arbitrary cursor values. -/
theorem len_formula {T : Type} (s : List T) (r w r2 : Int) :
    Len s r w = (if w ≥ r then w - r else (s.length : Int) - (r - w)) ∧
    Len ([] : List T) r2 r2 = 0 := by
  refine ⟨rfl, ?_⟩
  simp [Len]

/-- C6 counterexample: on the zero-length store with `read = 0`, `write = 1`
the code returns `write - read = 1`, not `0` — so `Len` does not return `0`
for a zero-length store regardless of the cursor values. -/
theorem len_formula_cex : ¬ (Len ([] : List Int) 0 1 = 0) := by decide

/-- C7: a zero-value `RingBuffer` and one constructed via `New` with any
capacity `C <= 0` are one and the same state; that state has capacity 0,
length 0, every `Push` on it returns `false` without changing it, and every
`Pop` on it returns `(default, false)` without changing it. -/
theorem zero_value_equiv {T : Type} [Inhabited T] (C : Int) (v : T) (hC : C ≤ 0) :
    New T C = zeroValue T ∧
    (zeroValue T).Cap = 0 ∧
    (zeroValue T).Len = 0 ∧
    (zeroValue T).Push v = some (false, zeroValue T) ∧
    (zeroValue T).Pop = some ((default : T), false, zeroValue T) := by
  refine ⟨?_, rfl, rfl, rfl, rfl⟩
  unfold New zeroValue
  rw [if_neg (by omega)]

/-- C7 witness: concrete instance at `C = -2`, element type `Int`. -/
theorem zero_value_equiv_witness :
    ((-2 : Int) ≤ 0) ∧
    (New Int (-2) = zeroValue Int ∧
     (zeroValue Int).Cap = 0 ∧
     (zeroValue Int).Len = 0 ∧
     (zeroValue Int).Push 5 = some (false, zeroValue Int) ∧
     (zeroValue Int).Pop = some ((default : Int), false, zeroValue Int)) :=
  ⟨by decide, zero_value_equiv (-2) 5 (by decide)⟩

/-- C9: for `C >= 1`, `New C` allocates a backing store of length `C + 1` and
has `Cap = C`, `Len = 0`; and for every store, `Cap` returns
`max(len(store) - 1, 0)`. -/
theorem construction_capacity {T : Type} [Inhabited T] (C : Int) (s : List T)
    (hC : 1 ≤ C) :
    ((New T C).buffer.length : Int) = C + 1 ∧
    (New T C).Cap = C ∧
    (New T C).Len = 0 ∧
    Cap s = max ((s.length : Int) - 1) 0 := by
  have hlen : ((New T C).buffer.length : Int) = C + 1 := by
    unfold New
    rw [if_pos (by omega : C ≥ 1)]
    simp only [List.length_replicate]
    omega
  refine ⟨hlen, ?_, ?_, ?_⟩
  · unfold RingBuffer.Cap
    show (if ((New T C).buffer.length : Int) - 1 < 0 then 0
      else ((New T C).buffer.length : Int) - 1) = C
    rw [hlen, if_neg (by omega)]
    omega
  · unfold RingBuffer.Len Len New
    simp
  · show (if (s.length : Int) - 1 < 0 then 0 else (s.length : Int) - 1) = _
    split <;> omega

/-- C9 witness: concrete instance at `C = 2` and a two-element store. -/
theorem construction_capacity_witness :
    (1 ≤ (2 : Int)) ∧
    (((New Int 2).buffer.length : Int) = 2 + 1 ∧
     (New Int 2).Cap = 2 ∧
     (New Int 2).Len = 0 ∧
     Cap ([5, 6] : List Int) = max ((([5, 6] : List Int).length : Int) - 1) 0) :=
  ⟨by decide, construction_capacity 2 [5, 6] (by decide)⟩

/-- C10: if both cursors lie in `[0, len(store))` (invariant INV1), neither
`Push` nor `Pop` panics: the out-of-range access branch is unreachable. -/
theorem access_safety {T : Type} [Inhabited T] (s : List T) (r w : Int) (v : T)
    (h1 : 0 ≤ r) (h2 : r < (s.length : Int)) (h3 : 0 ≤ w) (h4 : w < (s.length : Int)) :
    Push s r w v ≠ none ∧ Pop s r w ≠ none := by
  constructor
  · unfold Push goSet
    by_cases h0 : s.length = 0
    · simp [h0]
    · rw [if_neg h0]
      by_cases hfull : Int.tmod (w + 1) (s.length : Int) = r
      · simp [hfull]
      · simp [hfull, if_pos (⟨h3, h4⟩ : 0 ≤ w ∧ w < (s.length : Int))]
  · unfold Pop goIndex
    by_cases hrw : r = w
    · simp [hrw]
    · rw [if_neg hrw, if_pos (⟨h1, h2⟩ : 0 ≤ r ∧ r < (s.length : Int))]
      rw [List.getElem?_eq_getElem (by omega : r.toNat < s.length)]
      simp

/-- C10 witness: concrete in-range cursors on a two-element store. -/
theorem access_safety_witness :
    (0 ≤ (0 : Int)) ∧ ((0 : Int) < (([7, 8] : List Int).length : Int)) ∧
    (0 ≤ (1 : Int)) ∧ ((1 : Int) < (([7, 8] : List Int).length : Int)) ∧
    (Push ([7, 8] : List Int) 0 1 9 ≠ none ∧ Pop ([7, 8] : List Int) 0 1 ≠ none) :=
  ⟨by decide, by decide, by decide, by decide,
    access_safety [7, 8] 0 1 9 (by decide) (by decide) (by decide) (by decide)⟩

/-- C8: `Push` never touches the read cursor; on failure the whole container
state is unchanged, and on success only the write cursor and the single slot
at the old write position change.  `Pop` never touches the write cursor and
never writes to any backing-store slot (the vacated slot is not cleared). -/
theorem frame_effects {T : Type} [Inhabited T] (b : RingBuffer T) (v : T)
    (ok : Bool) (b2 : RingBuffer T) (x : T) (ok2 : Bool) (b3 : RingBuffer T)
    (hp : b.Push v = some (ok, b2)) (hq : b.Pop = some (x, ok2, b3)) :
    b2.read = b.read ∧
    (ok = false → b2 = b) ∧
    (ok = true → b2.write = Int.tmod (b.write + 1) (b.buffer.length : Int) ∧
      b2.buffer = b.buffer.set b.write.toNat v) ∧
    b3.write = b.write ∧ b3.buffer = b.buffer := by
  unfold RingBuffer.Push at hp
  unfold RingBuffer.Pop at hq
  cases hP : Push b.buffer b.read b.write v with
  | none => rw [hP] at hp; simp at hp
  | some p =>
    obtain ⟨ok', s2, w2⟩ := p
    rw [hP] at hp
    obtain ⟨e1, e2⟩ := (by simpa using hp : ok' = ok ∧ (⟨b.read, w2, s2⟩ : RingBuffer T) = b2)
    subst e1; subst e2
    cases hQ : Pop b.buffer b.read b.write with
    | none => rw [hQ] at hq; simp at hq
    | some q =>
      obtain ⟨val, okq, rq⟩ := q
      rw [hQ] at hq
      obtain ⟨f1, f2, f3⟩ :=
        (by simpa using hq : val = x ∧ okq = ok2 ∧ (⟨rq, b.write, b.buffer⟩ : RingBuffer T) = b3)
      subst f1; subst f2; subst f3
      obtain ⟨hp1, hp2, hp3⟩ := push_spec _ _ _ _ _ _ _ hP
      refine ⟨rfl, ?_, ?_, rfl, rfl⟩
      · intro hok
        obtain ⟨e3, e4⟩ := hp2 hok
        subst e3; subst e4
        rfl
      · intro hok
        obtain ⟨_, _, e3, e4⟩ := hp3 hok
        subst e3; subst e4
        exact ⟨rfl, rfl⟩

/-- C8 witness: a one-slot buffer holding one element — `Push` fails and
changes nothing, `Pop` succeeds and leaves write cursor and store intact. -/
theorem frame_effects_witness :
    ((⟨0, 1, [3, 0]⟩ : RingBuffer Int).Push 5 = some (false, ⟨0, 1, [3, 0]⟩)) ∧
    ((⟨0, 1, [3, 0]⟩ : RingBuffer Int).Pop = some (3, true, ⟨1, 1, [3, 0]⟩)) ∧
    ((⟨0, 1, [3, 0]⟩ : RingBuffer Int).read = (⟨0, 1, [3, 0]⟩ : RingBuffer Int).read ∧
     (false = false → (⟨0, 1, [3, 0]⟩ : RingBuffer Int) = ⟨0, 1, [3, 0]⟩) ∧
     (false = true →
       (⟨0, 1, [3, 0]⟩ : RingBuffer Int).write =
         Int.tmod ((⟨0, 1, [3, 0]⟩ : RingBuffer Int).write + 1)
           (((⟨0, 1, [3, 0]⟩ : RingBuffer Int).buffer.length : Nat) : Int) ∧
       (⟨0, 1, [3, 0]⟩ : RingBuffer Int).buffer =
         (⟨0, 1, [3, 0]⟩ : RingBuffer Int).buffer.set
           ((⟨0, 1, [3, 0]⟩ : RingBuffer Int).write).toNat 5) ∧
     (⟨1, 1, [3, 0]⟩ : RingBuffer Int).write = (⟨0, 1, [3, 0]⟩ : RingBuffer Int).write ∧
     (⟨1, 1, [3, 0]⟩ : RingBuffer Int).buffer = (⟨0, 1, [3, 0]⟩ : RingBuffer Int).buffer) :=
  ⟨by decide, by decide,
    frame_effects ⟨0, 1, [3, 0]⟩ 5 false ⟨0, 1, [3, 0]⟩ 3 true ⟨1, 1, [3, 0]⟩
      (by decide) (by decide)⟩

end ringbuffer
namespace ringbuffer

/-! ### Invariant preservation over reachable container states -/

/-- Invariant INV1: both cursors lie in `[0, len(store))`. -/
def Inv {T : Type} (b : RingBuffer T) : Prop :=
  0 ≤ b.read ∧ b.read < (b.buffer.length : Int) ∧
  0 ≤ b.write ∧ b.write < (b.buffer.length : Int)

/-- A returned `Push` preserves INV1 and the store length. -/
lemma inv_push {T : Type} (b : RingBuffer T) (v : T) (p : Bool × RingBuffer T)
    (hInv : Inv b) (hp : b.Push v = some p) :
    Inv p.2 ∧ p.2.buffer.length = b.buffer.length := by
  obtain ⟨h1, h2, h3, h4⟩ := hInv
  obtain ⟨okp, bp⟩ := p
  unfold RingBuffer.Push at hp
  cases hP : Push b.buffer b.read b.write v with
  | none => rw [hP] at hp; simp at hp
  | some q =>
    obtain ⟨ok, s2, w2⟩ := q
    rw [hP] at hp
    obtain ⟨e1, e2⟩ := (by simpa using hp : ok = okp ∧ (⟨b.read, w2, s2⟩ : RingBuffer T) = bp)
    obtain ⟨hs1, hs2, hs3⟩ := push_spec _ _ _ _ _ _ _ hP
    cases ok with
    | false =>
      obtain ⟨e3, e4⟩ := hs2 rfl
      subst e3; subst e4
      rw [← e2]
      exact ⟨⟨h1, h2, h3, h4⟩, rfl⟩
    | true =>
      obtain ⟨f1, f2, f3, f4⟩ := hs3 rfl
      subst f3; subst f4
      rw [← e2]
      have hlen : (b.buffer.set b.write.toNat v).length = b.buffer.length :=
        List.length_set ..
      have hmod : Int.tmod (b.write + 1) (b.buffer.length : Int) =
          (b.write + 1) % (b.buffer.length : Int) :=
        Int.tmod_eq_emod (by omega) (by omega)
      refine ⟨⟨h1, ?_, ?_, ?_⟩, hlen⟩
      · show b.read < ((b.buffer.set b.write.toNat v).length : Int)
        rw [hlen]; exact h2
      · show 0 ≤ Int.tmod (b.write + 1) (b.buffer.length : Int)
        rw [hmod]
        exact Int.emod_nonneg _ (by omega)
      · show Int.tmod (b.write + 1) (b.buffer.length : Int) <
          ((b.buffer.set b.write.toNat v).length : Int)
        rw [hmod, hlen]
        exact Int.emod_lt_of_pos _ (by omega)

/-- A returned `Pop` preserves INV1 and the store length. -/
lemma inv_pop {T : Type} [Inhabited T] (b : RingBuffer T) (p : T × Bool × RingBuffer T)
    (hInv : Inv b) (hp : b.Pop = some p) :
    Inv p.2.2 ∧ p.2.2.buffer.length = b.buffer.length := by
  obtain ⟨h1, h2, h3, h4⟩ := hInv
  obtain ⟨valp, okp, bp⟩ := p
  unfold RingBuffer.Pop at hp
  cases hP : Pop b.buffer b.read b.write with
  | none => rw [hP] at hp; simp at hp
  | some q =>
    obtain ⟨val, ok, r2⟩ := q
    rw [hP] at hp
    obtain ⟨e1, e2, e3⟩ :=
      (by simpa using hp :
        val = valp ∧ ok = okp ∧ (⟨r2, b.write, b.buffer⟩ : RingBuffer T) = bp)
    obtain ⟨hs1, hs2, hs3⟩ := pop_spec _ _ _ _ _ _ hP
    cases ok with
    | false =>
      obtain ⟨f1, f2⟩ := hs2 rfl
      subst f2
      rw [← e3]
      exact ⟨⟨h1, h2, h3, h4⟩, rfl⟩
    | true =>
      obtain ⟨f1, f2, f3, f4⟩ := hs3 rfl
      subst f4
      rw [← e3]
      have hmod : Int.tmod (b.read + 1) (b.buffer.length : Int) =
          (b.read + 1) % (b.buffer.length : Int) :=
        Int.tmod_eq_emod (by omega) (by omega)
      refine ⟨⟨?_, ?_, h3, h4⟩, rfl⟩
      · show 0 ≤ Int.tmod (b.read + 1) (b.buffer.length : Int)
        rw [hmod]
        exact Int.emod_nonneg _ (by omega)
      · show Int.tmod (b.read + 1) (b.buffer.length : Int) < (b.buffer.length : Int)
        rw [hmod]
        exact Int.emod_lt_of_pos _ (by omega)

/-- Every state reachable from `New C` with `C ≥ 1` satisfies INV1 and keeps
a store of length `C + 1`. -/
lemma reachable_inv {T : Type} [Inhabited T] (C : Int) (b : RingBuffer T)
    (hC : 1 ≤ C) (hb : Reachable C b) :
    Inv b ∧ (b.buffer.length : Int) = C + 1 := by
  induction hb with
  | init =>
    have hlen : ((New T C).buffer.length : Int) = C + 1 := by
      unfold New
      rw [if_pos (by omega : C ≥ 1)]
      simp only [List.length_replicate]
      omega
    refine ⟨⟨le_refl 0, ?_, le_refl 0, ?_⟩, hlen⟩ <;>
      · show (0 : Int) < ((New T C).buffer.length : Int)
        rw [hlen]; omega
  | push b v p hr hp ih =>
    obtain ⟨hInv, hlen⟩ := ih
    obtain ⟨hInv2, hlen2⟩ := inv_push b v p hInv hp
    exact ⟨hInv2, by rw [hlen2]; exact hlen⟩
  | pop b p hr hp ih =>
    obtain ⟨hInv, hlen⟩ := ih
    obtain ⟨hInv2, hlen2⟩ := inv_pop b p hInv hp
    exact ⟨hInv2, by rw [hlen2]; exact hlen⟩

/-- C2: in every state reachable from `New C` with `C ≥ 1` by `Push` and
`Pop` calls, both cursors satisfy `0 ≤ cursor < len(store)`, and `Len` equals
`(write - read) mod len(store)`, which lies in `[0, len(store) - 1]`, so
`Len ≤ Cap`. -/
theorem invariant_preservation {T : Type} [Inhabited T] (C : Int) (b : RingBuffer T)
    (hC : 1 ≤ C) (hb : Reachable C b) :
    (0 ≤ b.read ∧ b.read < (b.buffer.length : Int)) ∧
    (0 ≤ b.write ∧ b.write < (b.buffer.length : Int)) ∧
    b.Len = (b.write - b.read) % (b.buffer.length : Int) ∧
    0 ≤ b.Len ∧ b.Len ≤ (b.buffer.length : Int) - 1 ∧
    b.Len ≤ b.Cap := by
  obtain ⟨⟨h1, h2, h3, h4⟩, hlen⟩ := reachable_inv C b hC hb
  have hL : b.Len = (if b.write ≥ b.read then b.write - b.read
      else (b.buffer.length : Int) - (b.read - b.write)) := rfl
  have hCap : b.Cap = (if (b.buffer.length : Int) - 1 < 0 then 0
      else (b.buffer.length : Int) - 1) := rfl
  have hemod : (b.write - b.read) % (b.buffer.length : Int) = b.Len := by
    rw [hL]
    by_cases hwr : b.write ≥ b.read
    · rw [if_pos hwr]
      exact Int.emod_eq_of_lt (by omega) (by omega)
    · rw [if_neg hwr]
      have h5 : (b.write - b.read) % (b.buffer.length : Int) =
          (b.write - b.read + (b.buffer.length : Int)) % (b.buffer.length : Int) :=
        (Int.add_emod_self).symm
      rw [h5, Int.emod_eq_of_lt (by omega) (by omega)]
      omega
  refine ⟨⟨h1, h2⟩, ⟨h3, h4⟩, hemod.symm, ?_, ?_, ?_⟩
  · rw [hL]; split <;> omega
  · rw [hL]; split <;> omega
  · rw [hL, hCap]; split <;> split <;> omega

/-- C2 witness: the freshly constructed buffer of capacity 1 is reachable and
satisfies the invariant conclusions. -/
theorem invariant_preservation_witness :
    (1 ≤ (1 : Int)) ∧ Reachable 1 (New Int 1) ∧
    ((0 ≤ (New Int 1).read ∧ (New Int 1).read < ((New Int 1).buffer.length : Int)) ∧
     (0 ≤ (New Int 1).write ∧ (New Int 1).write < ((New Int 1).buffer.length : Int)) ∧
     (New Int 1).Len = ((New Int 1).write - (New Int 1).read) % ((New Int 1).buffer.length : Int) ∧
     0 ≤ (New Int 1).Len ∧ (New Int 1).Len ≤ ((New Int 1).buffer.length : Int) - 1 ∧
     (New Int 1).Len ≤ (New Int 1).Cap) :=
  ⟨by decide, Reachable.init,
    invariant_preservation 1 (New Int 1) (by decide) Reachable.init⟩

end ringbuffer
namespace ringbuffer

/-! ### Fresh-buffer push/pop scenarios (FIFO ordering and capacity ceiling) -/

/-- Write the values `vs` into consecutive slots starting at index `w`
(the effect of a run of successful pushes on the backing store). -/
def writeSeg {T : Type} (buf : List T) (w : Nat) : List T → List T
  | [] => buf
  | v :: vs => writeSeg (buf.set w v) (w + 1) vs

/-- `writeSeg` keeps the store length. -/
lemma writeSeg_length {T : Type} (vs : List T) (buf : List T) (w : Nat) :
    (writeSeg buf w vs).length = buf.length := by
  induction vs generalizing buf w with
  | nil => rfl
  | cons v vs ih => rw [writeSeg, ih, List.length_set]

/-- `writeSeg` leaves slots below the start index untouched. -/
lemma writeSeg_getElem_lt {T : Type} (vs : List T) (buf : List T) (w i : Nat)
    (h : i < w) :
    (writeSeg buf w vs)[i]? = buf[i]? := by
  induction vs generalizing buf w with
  | nil => rfl
  | cons v vs ih =>
    rw [writeSeg, ih _ (w + 1) (by omega), List.getElem?_set_ne (by omega)]

/-- Inside the written segment, `writeSeg` stores exactly the values `vs`. -/
lemma writeSeg_getElem_seg {T : Type} (vs : List T) (buf : List T) (w i : Nat)
    (hi : i < vs.length) (hw : w + vs.length ≤ buf.length) :
    (writeSeg buf w vs)[w + i]? = vs[i]? := by
  induction vs generalizing buf w i with
  | nil => simp at hi
  | cons v vs ih =>
    cases i with
    | zero =>
      rw [writeSeg]
      simp only [Nat.add_zero]
      rw [writeSeg_getElem_lt vs _ (w + 1) w (by omega),
        List.getElem?_set_self (by simp at hw ⊢; omega)]
      simp
    | succ i =>
      rw [writeSeg, (by omega : w + (i + 1) = (w + 1) + i),
        ih (buf.set w v) (w + 1) i (by simpa using hi)
          (by rw [List.length_set]; simp at hw; omega)]
      simp

/-- Writing `vs` from index 0 makes the first `vs.length` slots equal `vs`. -/
lemma writeSeg_take {T : Type} (vs buf : List T) (h : vs.length ≤ buf.length) :
    (writeSeg buf 0 vs).take vs.length = vs := by
  apply List.ext_getElem?
  intro n
  rw [List.getElem?_take]
  by_cases hn : n < vs.length
  · rw [if_pos hn]
    have := writeSeg_getElem_seg vs buf 0 n hn (by omega)
    simpa using this
  · rw [if_neg hn]
    exact (List.getElem?_eq_none (by omega)).symm

/-- A container `Push` with `read = 0` and room left (`write + 1 < len`)
succeeds, stores the value at the write position and advances the cursor. -/
lemma push_succeeds {T : Type} (buf : List T) (w : Int) (v : T)
    (h0 : 0 ≤ w) (hw : w + 1 < (buf.length : Int)) :
    RingBuffer.Push ⟨0, w, buf⟩ v = some (true, ⟨0, w + 1, buf.set w.toNat v⟩) := by
  have hne : buf.length ≠ 0 := by omega
  have hnext : Int.tmod (w + 1) (buf.length : Int) = w + 1 :=
    Int.tmod_eq_of_lt (by omega) hw
  unfold RingBuffer.Push Push goSet
  simp only
  rw [if_neg hne, hnext, if_neg (by omega : ¬ (w + 1 = (0 : Int))),
    if_pos (⟨h0, by omega⟩ : 0 ≤ w ∧ w < (buf.length : Int))]

/-- A container `Push` with `read = 0` and `write + 1 = len` hits the
sentinel slot and fails without changing the state. -/
lemma push_full {T : Type} (buf : List T) (w : Int) (v : T)
    (h0 : 0 ≤ w) (hw : w + 1 = (buf.length : Int)) :
    RingBuffer.Push ⟨0, w, buf⟩ v = some (false, ⟨0, w, buf⟩) := by
  have hne : buf.length ≠ 0 := by omega
  have hnext : Int.tmod (w + 1) (buf.length : Int) = 0 := by
    rw [hw]
    exact Int.tmod_self
  unfold RingBuffer.Push Push
  simp only
  rw [if_neg hne, hnext, if_pos rfl]

/-- Pushing a list of values into a buffer with `read = 0` and enough room
succeeds throughout, writing them consecutively from the write cursor. -/
lemma pushAll_from {T : Type} (vs : List T) (buf : List T) (w : Int)
    (h0 : 0 ≤ w) (h : w + vs.length < (buf.length : Int)) :
    pushAll ⟨0, w, buf⟩ vs =
      some (List.replicate vs.length true,
        ⟨0, w + vs.length, writeSeg buf w.toNat vs⟩) := by
  induction vs generalizing buf w with
  | nil => simp [pushAll, writeSeg]
  | cons v vs ih =>
    rw [pushAll, push_succeeds buf w v h0 (by simp at h; push_cast at h ⊢; omega)]
    dsimp only
    rw [ih (buf.set w.toNat v) (w + 1) (by omega)
      (by rw [List.length_set]; simp at h; push_cast at h ⊢; omega)]
    rw [(by omega : (w + 1).toNat = w.toNat + 1)]
    simp only [List.length_cons, List.replicate_succ, writeSeg]
    rw [(by push_cast; ring : (w + 1) + (vs.length : Int) = w + ((vs.length + 1 : Nat) : Int))]

/-- A container `Pop` with `read < write < len` yields the element at the
read position and advances the read cursor. -/
lemma pop_succeeds {T : Type} [Inhabited T] (buf : List T) (r w : Int) (x : T)
    (h0 : 0 ≤ r) (hrw : r < w) (hw : w < (buf.length : Int))
    (hr : buf[r.toNat]? = some x) :
    RingBuffer.Pop ⟨r, w, buf⟩ = some (x, true, ⟨r + 1, w, buf⟩) := by
  have hnext : Int.tmod (r + 1) (buf.length : Int) = r + 1 :=
    Int.tmod_eq_of_lt (by omega) (by omega)
  unfold RingBuffer.Pop Pop goIndex
  simp only
  rw [if_neg (by omega : ¬ r = w),
    if_pos (⟨h0, by omega⟩ : 0 ≤ r ∧ r < (buf.length : Int)), hr, hnext]

/-- Popping `n` times with `read + n ≤ write < len` yields the `n` stored
elements in order, each flagged successful. -/
lemma popN_from {T : Type} [Inhabited T] (n : Nat) (r : Int) (buf : List T) (w : Int)
    (h0 : 0 ≤ r) (h1 : r + n ≤ w) (h2 : w < (buf.length : Int)) :
    popN ⟨r, w, buf⟩ n =
      some (((buf.drop r.toNat).take n).map (fun x => (x, true)), ⟨r + n, w, buf⟩) := by
  induction n generalizing r with
  | zero => simp [popN]
  | succ n ih =>
    have hrlen : r.toNat < buf.length := by push_cast at h1; omega
    have hget : buf[r.toNat]? = some buf[r.toNat] := List.getElem?_eq_getElem hrlen
    rw [popN, pop_succeeds buf r w _ h0 (by push_cast at h1; omega) h2 hget]
    dsimp only
    rw [ih (r + 1) (by omega) (by push_cast at h1 ⊢; omega)]
    dsimp only
    rw [List.drop_eq_getElem_cons hrlen, List.take_succ_cons, List.map_cons,
      (by omega : (r + 1).toNat = r.toNat + 1),
      (by push_cast; ring : (r + 1) + (n : Int) = r + ((n + 1 : Nat) : Int))]

/-- `pushAll` splits over list concatenation. -/
lemma pushAll_append {T : Type} (xs ys : List T) (b : RingBuffer T) :
    pushAll b (xs ++ ys) = (pushAll b xs).bind (fun p =>
      (pushAll p.2 ys).map (fun q => (p.1 ++ q.1, q.2))) := by
  induction xs generalizing b with
  | nil =>
    cases h : pushAll b ys with
    | none => simp [pushAll, h]
    | some q => simp [pushAll, h]
  | cons x xs ih =>
    rw [List.cons_append, pushAll, pushAll]
    cases hb : b.Push x with
    | none => rfl
    | some p =>
      obtain ⟨ok, b2⟩ := p
      dsimp only
      rw [ih b2]
      cases hx : pushAll b2 xs with
      | none => rfl
      | some q =>
        obtain ⟨oks, b3⟩ := q
        simp only [Option.some_bind]
        cases hy : pushAll b3 ys with
        | none => simp
        | some z => simp

/-- C1: on a fresh buffer of capacity `C ≥ 1`, pushing `v1, ..., vn` with
`n ≤ C` succeeds at every step, and `n` subsequent pops return exactly
`v1, ..., vn` in order, each paired with `true`. -/
theorem fifo_order {T : Type} [Inhabited T] (C : Int) (vs : List T)
    (hC : 1 ≤ C) (hn : (vs.length : Int) ≤ C) :
    (pushAll (New T C) vs).map Prod.fst = some (List.replicate vs.length true) ∧
    ((pushAll (New T C) vs).bind (fun p => popN p.2 vs.length)).map Prod.fst =
      some (vs.map (fun v => (v, true))) := by
  have hNew : New T C = ⟨0, 0, List.replicate (C + 1).toNat default⟩ := by
    unfold New
    rw [if_pos (by omega : C ≥ 1)]
  have hlen : (List.replicate (C + 1).toNat (default : T)).length = (C + 1).toNat := by
    simp
  rw [hNew, pushAll_from vs _ 0 (le_refl 0) (by rw [hlen]; push_cast; omega)]
  refine ⟨rfl, ?_⟩
  simp only [Option.some_bind]
  rw [popN_from vs.length 0 _ (0 + (vs.length : Int)) (le_refl 0) (le_refl _)
    (by rw [writeSeg_length, hlen]; push_cast; omega)]
  simp only [Option.map_some', Int.toNat_zero, List.drop_zero]
  rw [writeSeg_take vs _ (by rw [hlen]; omega)]


/-- C3: on a fresh buffer of capacity `C ≥ 1`, pushing `C + 1` values with
no intervening pop makes the first `C` pushes return `true` and exactly the
last return `false`, after which `Len = Cap = C`. -/
theorem capacity_ceiling {T : Type} [Inhabited T] (C : Int) (vs : List T) (v : T)
    (hC : 1 ≤ C) (hn : (vs.length : Int) = C) :
    (pushAll (New T C) (vs ++ [v])).map Prod.fst =
      some (List.replicate vs.length true ++ [false]) ∧
    (pushAll (New T C) (vs ++ [v])).map (fun p => (p.2.Len, p.2.Cap)) =
      some (C, C) := by
  have hNew : New T C = ⟨0, 0, List.replicate (C + 1).toNat default⟩ := by
    unfold New
    rw [if_pos (by omega : C ≥ 1)]
  have hlen : (List.replicate (C + 1).toNat (default : T)).length = (C + 1).toNat := by
    simp
  have hwlen : ((writeSeg (List.replicate (C + 1).toNat (default : T)) 0 vs).length : Int) =
      C + 1 := by
    rw [writeSeg_length, hlen]
    omega
  rw [hNew, pushAll_append,
    pushAll_from vs _ 0 (le_refl 0) (by rw [hlen]; push_cast; omega)]
  simp only [Option.some_bind, Int.toNat_zero]
  rw [pushAll, push_full _ (0 + (vs.length : Int)) v (by omega) (by rw [hwlen]; omega)]
  simp only [pushAll, Option.map_some']
  refine ⟨trivial, ?_⟩
  unfold RingBuffer.Len RingBuffer.Cap Len Cap
  simp only [Option.map_some', hwlen]
  rw [if_pos (by omega : (0 : Int) + (vs.length : Int) ≥ 0),
    if_neg (by omega : ¬ (C + 1 - 1 < (0 : Int)))]
  simp only [Option.some.injEq, Prod.mk.injEq]
  constructor <;> omega

/-- C1 witness: capacity 3, values `[1, 2, 3]`. -/
theorem fifo_order_witness :
    (1 ≤ (3 : Int)) ∧ ((([1, 2, 3] : List Int).length : Int) ≤ 3) ∧
    ((pushAll (New Int 3) [1, 2, 3]).map Prod.fst =
       some (List.replicate ([1, 2, 3] : List Int).length true) ∧
     ((pushAll (New Int 3) [1, 2, 3]).bind
         (fun p => popN p.2 ([1, 2, 3] : List Int).length)).map Prod.fst =
       some (([1, 2, 3] : List Int).map (fun v => (v, true)))) :=
  ⟨by decide, by decide, fifo_order 3 [1, 2, 3] (by decide) (by decide)⟩

/-- C3 witness: capacity 2, values `[4, 5]` then the failing `6`. -/
theorem capacity_ceiling_witness :
    (1 ≤ (2 : Int)) ∧ ((([4, 5] : List Int).length : Int) = 2) ∧
    ((pushAll (New Int 2) ([4, 5] ++ [6])).map Prod.fst =
       some (List.replicate ([4, 5] : List Int).length true ++ [false]) ∧
     (pushAll (New Int 2) ([4, 5] ++ [6])).map (fun p => (p.2.Len, p.2.Cap)) =
       some (2, 2)) :=
  ⟨by decide, by decide, capacity_ceiling 2 [4, 5] 6 (by decide) (by decide)⟩

end ringbuffer
